import Mathlib

/-!
Verification of the mgit core: remote-identifier parser (`internal/giturl`),
rule matcher (`internal/matcher`), command-target inferrer (`internal/runner`)
and the resolution orchestrator (`internal/resolve`).

Strings are modelled as `List Char`; each `Char` models one Go character
(byte/rune distinctions are identified, which is exact for ASCII data).
Go standard-library collaborators that the core calls are embedded where the
core's behaviour depends on them (`path/filepath.Match`, `path.Clean`,
`strings.*`); `net/url.Parse` and `config.ExpandPath` perform I/O or are
plumbing and are passed as explicit function parameters, so every theorem
quantifying over them holds for any behaviour of those collaborators.
-/

namespace Mgit

/-- Shorthand for the character list of a string literal. -/
def str (s : String) : List Char := s.data

/-- The single-quote character (ASCII 39). -/
def squote : Char := Char.ofNat 39

/-- The double-quote character (ASCII 34). -/
def dquote : Char := Char.ofNat 34

/-- Models Go `strings.TrimSpace` (whitespace per `Char.isWhitespace`). -/
def trimSpace (s : List Char) : List Char :=
  ((s.dropWhile Char.isWhitespace).reverse.dropWhile Char.isWhitespace).reverse

/-- Models Go `strings.ToLower`, character-wise (exact for ASCII). -/
def toLowerChars (s : List Char) : List Char :=
  s.map Char.toLower

/-- Whether the character occurs in the list (Go `strings.Contains` with a
one-character needle, `strings.ContainsRune`). -/
def hasChar (s : List Char) (c : Char) : Bool :=
  s.any (fun d => d == c)

/-- Go `strings.Contains sub s`: `sub` occurs contiguously in `s`. -/
def containsStr (sub : List Char) : List Char → Bool
  | [] => sub.isEmpty
  | s@(_ :: rest) => sub.isPrefixOf s || containsStr sub rest

/-! ## Go `path/filepath.Match` (Unix rules), used by the matcher.

`scanChunk` splits a pattern into a leading run of stars and a literal chunk;
`matchChunk` matches a chunk against the head of a name; `getEsc` reads one
(possibly escaped) character of a character class.  Errors (malformed
patterns) are `none`; a result `some (rest, ok)` gives the unmatched rest of
the name and whether the chunk matched.  The recursions that Go writes as
loops consuming the pattern are given fuel equal to the pattern length plus
one, which they never exhaust since every iteration consumes at least one
pattern character. -/

/-- Go `scanChunk`'s scan loop: split off the chunk up to the next top-level
star, tracking whether the scan is inside a character class. -/
def scanChunkLoop : List Char → Bool → (List Char × List Char)
  | [], _ => ([], [])
  | '\\' :: rest, inrange =>
    match rest with
    | [] => (['\\'], [])
    | d :: ds =>
      let (ch, r) := scanChunkLoop ds inrange
      ('\\' :: d :: ch, r)
  | '[' :: rest, _ =>
    let (ch, r) := scanChunkLoop rest true
    ('[' :: ch, r)
  | ']' :: rest, _ =>
    let (ch, r) := scanChunkLoop rest false
    (']' :: ch, r)
  | '*' :: rest, inrange =>
    if inrange then
      let (ch, r) := scanChunkLoop rest inrange
      ('*' :: ch, r)
    else ([], '*' :: rest)
  | c :: rest, inrange =>
    let (ch, r) := scanChunkLoop rest inrange
    (c :: ch, r)

/-- Strip the maximal leading run of `*` characters, reporting whether any
was present. -/
def stripStars : List Char → (Bool × List Char)
  | '*' :: rest => (true, (stripStars rest).2)
  | p => (false, p)

/-- Go `scanChunk`. -/
def scanChunk (pattern : List Char) : Bool × List Char × List Char :=
  let (star, p) := stripStars pattern
  let (chunk, rest) := scanChunkLoop p false
  (star, chunk, rest)

/-- Go `getEsc`: one possibly-escaped character class item; `none` is
`ErrBadPattern`. -/
def getEsc : List Char → Option (Char × List Char)
  | [] => none
  | c :: cs =>
    if c = '-' ∨ c = ']' then none
    else if c = '\\' then
      match cs with
      | [] => none
      | d :: ds => if ds.isEmpty then none else some (d, ds)
    else if cs.isEmpty then none else some (c, cs)

theorem getEsc_length {c : List Char} {r : Char} {c' : List Char}
    (h : getEsc c = some (r, c')) : c'.length < c.length := by
  match c with
  | [] => simp [getEsc] at h
  | a :: cs =>
    by_cases h1 : a = '-' ∨ a = ']'
    · simp [getEsc, h1] at h
    · by_cases h2 : a = '\\'
      · match cs with
        | [] => simp [getEsc, h1, h2] at h
        | d :: ds =>
          by_cases h3 : ds.isEmpty
          · simp [getEsc, h1, h2, h3] at h
          · simp [getEsc, h1, h2, h3] at h
            obtain ⟨_, h5⟩ := h
            subst h5
            simp [List.length]
            omega
      · by_cases h3 : cs.isEmpty
        · simp [getEsc, h1, h2, h3] at h
        · simp [getEsc, h1, h2, h3] at h
          obtain ⟨_, h5⟩ := h
          subst h5
          simp [List.length]

/-- The character-class loop inside Go `matchChunk`'s `'['` case: scan the
class items, recording whether the rune `r` fell in one of the ranges.
Fuel: each iteration consumes at least one chunk character. -/
def matchClassLoop : Nat → List Char → Char → Nat → Bool → Option (List Char × Bool)
  | 0, _, _, _, _ => none
  | fuel + 1, chunk, r, nrange, matched =>
    if chunk.head? = some ']' ∧ 0 < nrange then some (chunk.tail, matched)
    else
      match getEsc chunk with
      | none => none
      | some (lo, c1) =>
        match c1 with
        | '-' :: c2 =>
          match getEsc c2 with
          | none => none
          | some (hi, c3) =>
            matchClassLoop fuel c3 r (nrange + 1)
              (matched || (decide (lo ≤ r) && decide (r ≤ hi)))
        | _ =>
          matchClassLoop fuel c1 r (nrange + 1)
            (matched || (decide (lo ≤ r) && decide (r ≤ lo)))

/-- Go `matchChunk`, threading the `failed` flag exactly as the source does.
The `'['` case gives the class loop its own (sufficient) fuel. -/
def matchChunkAux : Nat → List Char → List Char → Bool → Option (List Char × Bool)
  | 0, _, _, _ => none
  | _ + 1, [], s, failed => if failed then some ([], false) else some (s, true)
  | fuel + 1, c :: cs, s0, failed0 =>
    let failed := failed0 || s0.isEmpty
    if c = '[' then
      let r := if failed then Char.ofNat 0 else s0.headD (Char.ofNat 0)
      let s := if failed then s0 else s0.tail
      let (negated, cs1) :=
        match cs with
        | '^' :: t => (true, t)
        | _ => (false, cs)
      match matchClassLoop (cs1.length + 1) cs1 r 0 false with
      | none => none
      | some (csRest, m) => matchChunkAux fuel csRest s (failed || (m == negated))
    else if c = '?' then
      if failed then matchChunkAux fuel cs s0 failed
      else matchChunkAux fuel cs s0.tail (s0.headD (Char.ofNat 0) == '/')
    else if c = '\\' then
      match cs with
      | [] => none
      | d :: ds =>
        if failed then matchChunkAux fuel ds s0 failed
        else matchChunkAux fuel ds s0.tail (!(s0.headD (Char.ofNat 0) == d))
    else
      if failed then matchChunkAux fuel cs s0 failed
      else matchChunkAux fuel cs s0.tail (!(s0.headD (Char.ofNat 0) == c))

/-- Go `matchChunk` entry point. -/
def matchChunk (chunk s : List Char) : Option (List Char × Bool) :=
  matchChunkAux (chunk.length + 1) chunk s false

/-- Outcome of the star back-off loop inside Go `Match`. -/
inductive StarOut
  | found (t : List Char)
  | errOut
  | noneOut
deriving DecidableEq

/-- The `if star` back-off loop of Go `Match`: retry the chunk at each later
position of the name, never crossing a separator. -/
def starLoop (chunk pat : List Char) : List Char → StarOut
  | [] => .noneOut
  | c :: rest =>
    if c = '/' then .noneOut
    else
      match matchChunk chunk rest with
      | some (t, true) =>
        if pat.isEmpty && !t.isEmpty then starLoop chunk pat rest else .found t
      | some (_, false) => starLoop chunk pat rest
      | none => .errOut

/-- The final pattern-validity sweep of Go `Match` (runs before returning a
non-match, to surface `ErrBadPattern`). -/
def chunksValidAux : Nat → List Char → Bool
  | 0, _ => false
  | _ + 1, [] => true
  | fuel + 1, pat =>
    let (_, chunk, rest) := scanChunk pat
    match matchChunk chunk chunk with
    | none => false
    | some _ => chunksValidAux fuel rest

/-- Go `path/filepath.Match`'s main loop (Unix separator `/`). -/
def goMatchAux : Nat → List Char → List Char → Option Bool
  | 0, _, _ => none
  | _ + 1, [], name => some name.isEmpty
  | fuel + 1, p :: ps, name =>
    let (star, chunk, rest) := scanChunk (p :: ps)
    if star && chunk.isEmpty then some (!(hasChar name '/'))
    else
      match matchChunk chunk name with
      | none => none
      | some (t, ok) =>
        if ok && (t.isEmpty || !rest.isEmpty) then goMatchAux fuel rest t
        else if star then
          match starLoop chunk rest name with
          | .found t2 => goMatchAux fuel rest t2
          | .errOut => none
          | .noneOut => if chunksValidAux (rest.length + 1) rest then some false else none
        else if chunksValidAux (rest.length + 1) rest then some false else none

/-- Go `path/filepath.Match`: `some ok` on a well-formed pattern, `none` for
`ErrBadPattern`. -/
def goMatch (pattern name : List Char) : Option Bool :=
  goMatchAux (pattern.length + 1) pattern name

/-! ## Go `path.Clean` (lexical path normalization, slash-separated).

Segment-level embedding of the documented algorithm: drop empty and `.`
elements, let `..` pop the previous element (kept literally at the start of a
relative path, dropped at the root of a rooted one); an empty result is `.`. -/

/-- Split at every `/` (Go `strings.Split` with separator `"/"`). -/
def splitSlash : List Char → List (List Char)
  | [] => [[]]
  | c :: cs =>
    match splitSlash cs with
    | [] => [[c]]
    | s :: rest => if c = '/' then [] :: s :: rest else (c :: s) :: rest

/-- Go `strings.Join` with separator `"/"`. -/
def joinSlash (parts : List (List Char)) : List Char :=
  List.intercalate (str "/") parts

/-- Go `path.Clean`. -/
def pathClean (p : List Char) : List Char :=
  if p.isEmpty then str "."
  else
    let rooted := p.head? = some '/'
    let out := (splitSlash p).foldl
      (fun (acc : List (List Char)) s =>
        if s.isEmpty ∨ s = str "." then acc
        else if s = str ".." then
          match acc with
          | [] => if rooted then [] else [str ".."]
          | t :: rest => if t = str ".." then s :: t :: rest else rest
        else s :: acc) []
    let parts := out.reverse
    if rooted then '/' :: joinSlash parts
    else if parts.isEmpty then str "."
    else joinSlash parts

/-! ## Package `internal/giturl`: the remote-identifier parser. -/

inductive Transport
  | ssh
  | https
  | other
deriving DecidableEq

/-- Go `giturl.ParsedRemote`. -/
structure ParsedRemote where
  original : List Char
  transport : Transport
  scheme : List Char
  user : List Char
  host : List Char
  port : List Char
  owner : List Char
  repo : List Char
  rawPath : List Char
  isRemoteURL : Bool
deriving DecidableEq

/-- Go `ParsedRemote.IsSSH`. -/
def ParsedRemote.IsSSH (p : ParsedRemote) : Bool :=
  p.transport = Transport.ssh

/-- Go `ParsedRemote.IsHTTPS`. -/
def ParsedRemote.IsHTTPS (p : ParsedRemote) : Bool :=
  p.transport = Transport.https

/-- The error cases of `splitRepoPath`, one per `return` with an error. -/
inductive SplitErr
  | emptyPath
  | tooFewSegments
  | emptyRepo
  | emptyOwner
deriving DecidableEq

/-- The errors the parser can return (Go uses `errors.New`/`fmt.Errorf`
values; this names each return site of the source). -/
inductive ParseErr
  | emptyURL
  | urlParseFailed
  | missingHost
  | repoPath (e : SplitErr)
  | unsupportedFormat
deriving DecidableEq

/-- The segment pipeline shared by `splitRepoPath`: trim whitespace, one
leading `/`, a leading `./`, one trailing `/`. -/
def prepPath (rawPath : List Char) : List Char :=
  let p0 := trimSpace rawPath
  let p1 := if (str "/").isPrefixOf p0 then p0.drop 1 else p0
  let p2 := if (str "./").isPrefixOf p1 then p1.drop 2 else p1
  if (str "/").isSuffixOf p2 then p2.take (p2.length - 1) else p2

/-- The non-empty `/`-separated segments of the prepared path. -/
def pathSegments (rawPath : List Char) : List (List Char) :=
  (splitSlash (prepPath rawPath)).filter (fun s => !s.isEmpty)

/-- One trailing `.git` stripped (Go `strings.TrimSuffix`). -/
def stripGitSuffix (s : List Char) : List Char :=
  if (str ".git").isSuffixOf s then s.take (s.length - 4) else s

/-- Go `giturl.splitRepoPath`: returns `(owner, repo, cleanPath)`. -/
def splitRepoPath (rawPath : List Char) : Except SplitErr (List Char × List Char × List Char) :=
  let p := prepPath rawPath
  if p.isEmpty then .error .emptyPath
  else
    let filtered := (splitSlash p).filter (fun s => !s.isEmpty)
    if filtered.length < 2 then .error .tooFewSegments
    else
      let repo := stripGitSuffix (filtered.getLastD [])
      if repo.isEmpty then .error .emptyRepo
      else
        let owner0 := pathClean (joinSlash filtered.dropLast)
        let owner := if owner0 = str "." then [] else owner0
        if owner.isEmpty then .error .emptyOwner
        else .ok (owner, repo, joinSlash filtered)

/-! ### The scp-like shorthand grammar.

Go matches `scpLikeRe`, the anchored regular expression
`(?:(?P<user>[^@]+)@)?(?P<host>[^:]+):(?P<path>.+)` with leftmost-first
(Perl-style) submatch semantics.  Backtracking is fully determined for this
expression: the optional user group can only match the (non-empty) text
before the first `@`, the host everything from there to the next `:`, and
the path the (non-empty, newline-free, since `.` excludes `\n` and `$`
anchors at end of text) remainder; if the group-taken attempt fails the
engine retries with the group empty, so the host is then the text before the
first `:` of the whole input. -/

/-- Match `(?P<host>[^:]+):(?P<path>.+)$` against `t`. -/
def scpHostPath (t : List Char) : Option (List Char × List Char) :=
  let host := t.takeWhile (fun c => c ≠ ':')
  let rest := t.dropWhile (fun c => c ≠ ':')
  if rest.head? = some ':' then
    let path := rest.tail
    if host.isEmpty || path.isEmpty || hasChar path '\n' then none else some (host, path)
  else none

/-- The submatches `(user, host, path)` of `scpLikeRe`, `none` when the
expression does not match. -/
def scpSubmatch (s : List Char) : Option (List Char × List Char × List Char) :=
  let user := s.takeWhile (fun c => c ≠ '@')
  let rest := s.dropWhile (fun c => c ≠ '@')
  if rest.head? = some '@' ∧ ¬ user.isEmpty then
    match scpHostPath rest.tail with
    | some (host, path) => some (user, host, path)
    | none => (scpHostPath s).map (fun hp => (([] : List Char), hp.1, hp.2))
  else (scpHostPath s).map (fun hp => (([] : List Char), hp.1, hp.2))

/-- Go `giturl.parseSCPLike`. -/
def parseSCPLike (raw : List Char) : Except ParseErr ParsedRemote :=
  match scpSubmatch raw with
  | none => .error .unsupportedFormat
  | some (user, host, path) =>
    match splitRepoPath path with
    | .error e => .error (.repoPath e)
    | .ok (owner, repo, cleanPath) =>
      .ok { original := raw, transport := .ssh, scheme := str "ssh", user := user,
            host := host, port := [], owner := owner, repo := repo,
            rawPath := cleanPath, isRemoteURL := true }

/-- The components of a `net/url.URL` that `parseURL` reads.  `net/url.Parse`
itself is standard-library code outside this repository, so `parseURL` and
everything above it take the function `urlP` producing these components as a
parameter (`none` models a parse error). -/
structure URLParts where
  scheme : List Char
  hasUser : Bool
  username : List Char
  hostname : List Char
  port : List Char
  path : List Char
deriving DecidableEq

/-- Go `giturl.parseURL`, generic over the `net/url.Parse` collaborator. -/
def parseURL (urlP : List Char → Option URLParts) (raw : List Char) :
    Except ParseErr ParsedRemote :=
  match urlP raw with
  | none => .error .urlParseFailed
  | some u =>
    if u.hostname.isEmpty then .error .missingHost
    else
      match splitRepoPath u.path with
      | .error e => .error (.repoPath e)
      | .ok (owner, repo, cleanPath) =>
        let scheme := toLowerChars u.scheme
        .ok { original := raw, scheme := scheme, host := u.hostname, port := u.port,
              user := if u.hasUser then u.username else [],
              owner := owner, repo := repo, rawPath := cleanPath, isRemoteURL := true,
              transport :=
                if scheme = str "ssh" then .ssh
                else if scheme = str "https" then .https
                else .other }

/-- Go `giturl.Parse`. -/
def Parse (urlP : List Char → Option URLParts) (input : List Char) :
    Except ParseErr ParsedRemote :=
  let s := trimSpace input
  if s.isEmpty then .error .emptyURL
  else if containsStr (str "://") s then parseURL urlP s
  else parseSCPLike s

/-- Go `giturl.IsLikelyRemoteURL`: total, never returns an error. -/
def IsLikelyRemoteURL (s : List Char) : Bool :=
  containsStr (str "://") s || (scpSubmatch s).isSome

/-! ## Package `internal/config`: the rule records (the matcher only reads
them; file handling is out of scope). -/

/-- Go `config.Rule`.  `priority` holds the value of the Go `int` field
(64-bit; JSON loading only ever produces values in `[-2^63, 2^63)`); the
matcher's arithmetic on it wraps, see `wrap64` and `matchRule`. -/
structure Rule where
  id : List Char
  host : List Char
  owner : List Char
  key : List Char
  priority : Int
deriving DecidableEq

/-- Go `config.Config` (only the fields the resolver reads). -/
structure Config where
  version : Int
  rules : List Rule
deriving DecidableEq

/-! ## Package `internal/matcher`: the priority/specificity rule matcher. -/

/-- Go `matcher.MatchResult`. -/
structure MatchResult where
  rule : Rule
  score : Int
  index : Nat
deriving DecidableEq

/-- The two error returns of Go `matcher.Match` (besides the nil-remote
check, which has no counterpart for Lean values). -/
inductive MatchError
  | emptyHost
  | noRuleMatched (host owner : List Char)
deriving DecidableEq

/-- Go `matcher.normalizePattern` (also `config.normalizePattern`). -/
def normalizePattern (s : List Char) : List Char :=
  let t := trimSpace s
  if t.isEmpty then str "*" else t

/-- Go `matcher.hasWildcard`: `strings.ContainsAny(pattern, "*?[")`. -/
def hasWildcard (pattern : List Char) : Bool :=
  pattern.any (fun c => c == '*' || c == '?' || c == '[')

/-- Go `strings.EqualFold`, character-wise case folding (exact for ASCII). -/
def equalFold (a b : List Char) : Bool :=
  toLowerChars a == toLowerChars b

/-- Go `matcher.specificityScore`. -/
def specificityScore (pattern value : List Char) : Int :=
  if pattern = str "*" then 0
  else if !hasWildcard pattern && equalFold pattern value then 400
  else if !hasWildcard pattern then 300
  else 100

/-- Go `matcher.literalChars`: pattern characters other than `*?[]`.  (The
Go counter is an `int` incremented once per pattern character, so it always
equals the true count: a Go string is shorter than `2^63`.) -/
def literalChars (pattern : List Char) : Int :=
  ((pattern.filter (fun c => !(c == '*' || c == '?' || c == '[' || c == ']'))).length : Int)

/-- Go's `int` is 64 bits: wrap an unbounded integer into
`[-9223372036854775808, 9223372036854775808)` (that is, `[-2^63, 2^63)`)
the way two's-complement arithmetic does on overflow.  Applied to every
`*`/`+` of the score computation, since Go integer arithmetic wraps. -/
def wrap64 (n : Int) : Int :=
  (n + 9223372036854775808) % 18446744073709551616 - 9223372036854775808

/-- Go `matcher.matchRule`: whether the rule is a candidate for the remote,
and its score.  The score accumulation mirrors the source's `int`
operations: `score := r.Priority * 1000` then three `score += ...` steps,
each a 64-bit operation that wraps on overflow (`wrap64`). -/
def matchRule (r : Rule) (remote : ParsedRemote) : Bool × Int :=
  let hostPattern := normalizePattern (toLowerChars r.host)
  let ownerPattern := normalizePattern (toLowerChars r.owner)
  let hostValue := toLowerChars remote.host
  let ownerValue := toLowerChars remote.owner
  match goMatch hostPattern hostValue with
  | some true =>
    match goMatch ownerPattern ownerValue with
    | some true =>
      (true,
        wrap64 (wrap64 (wrap64 (wrap64 (r.priority * 1000)
              + specificityScore hostPattern hostValue)
            + specificityScore ownerPattern ownerValue)
          + wrap64 (literalChars hostPattern + literalChars ownerPattern)))
    | _ => (false, 0)
  | _ => (false, 0)

/-- The scan loop of Go `matcher.Match`: keep the best candidate, a later one
only replacing it on a strictly greater score. -/
def matchLoop (remote : ParsedRemote) : List Rule → Nat → Option MatchResult → Option MatchResult
  | [], _, best => best
  | r :: rs, i, best =>
    let (ok, score) := matchRule r remote
    if ok then
      let candidate : MatchResult := ⟨r, score, i⟩
      match best with
      | none => matchLoop remote rs (i + 1) (some candidate)
      | some b =>
        if candidate.score > b.score then matchLoop remote rs (i + 1) (some candidate)
        else matchLoop remote rs (i + 1) (some b)
    else matchLoop remote rs (i + 1) best

/-- Go `matcher.Match`. -/
def Match (rules : List Rule) (remote : ParsedRemote) : Except MatchError MatchResult :=
  if remote.host.isEmpty then .error .emptyHost
  else
    match matchLoop remote rules 0 none with
    | none => .error (.noRuleMatched remote.host remote.owner)
    | some best => .ok best

/-- A rule is a candidate for the remote (first component of `matchRule`). -/
def isCandidate (r : Rule) (remote : ParsedRemote) : Bool :=
  (matchRule r remote).1

/-- A rule's score against the remote (second component of `matchRule`). -/
def ruleScore (r : Rule) (remote : ParsedRemote) : Int :=
  (matchRule r remote).2

/-! ## Package `internal/runner`: the command-target inferrer and the
authentication-override string. -/

/-- Go `runner.TargetKind`. -/
inductive TargetKind
  | none
  | remote
  | url
deriving DecidableEq

/-- Go `runner.GitTarget`. -/
structure GitTarget where
  kind : TargetKind
  command : List Char := []
  remoteName : List Char := []
  url : List Char := []
  notes : List Char := []
  skipSSHSelection : Bool := false
deriving DecidableEq

/-- Go `runner.takesValue`. -/
def takesValue (flag : List Char) : Bool :=
  if hasChar flag '=' then false
  else
    flag == str "-c" || flag == str "--config" || flag == str "-C" ||
      flag == str "--upload-pack" || flag == str "--receive-pack" || flag == str "-o"

/-- Go `runner.positionalArgs`. -/
def positionalArgs : List (List Char) → List (List Char)
  | [] => []
  | a :: rest =>
    if a == str "--" then rest
    else if a.isEmpty then positionalArgs rest
    else if a.head? == some '-' then
      if takesValue a then
        match rest with
        | [] => []
        | _ :: rest2 => positionalArgs rest2
      else positionalArgs rest
    else a :: positionalArgs rest

/-- Go `runner.InferGitTarget`: the target and the error (`none` = nil). -/
def InferGitTarget (args : List (List Char)) : GitTarget × Option (List Char) :=
  match args with
  | [] => ({ kind := .none }, none)
  | cmd :: rest =>
    if cmd == str "push" || cmd == str "fetch" || cmd == str "pull" then
      match positionalArgs rest with
      | [] => ({ kind := .none, command := cmd,
                 notes := str "remote not specified explicitly" }, none)
      | p :: _ =>
        if IsLikelyRemoteURL p then ({ kind := .url, command := cmd, url := p }, none)
        else ({ kind := .remote, command := cmd, remoteName := p }, none)
    else if cmd == str "clone" then
      match positionalArgs rest with
      | [] => ({ kind := .none, command := cmd }, some (str "clone requires repository URL"))
      | p :: _ => ({ kind := .url, command := cmd, url := p }, none)
    else if cmd == str "ls-remote" then
      match positionalArgs rest with
      | [] => ({ kind := .none, command := cmd, notes := str "no repository argument" }, none)
      | p :: _ =>
        if IsLikelyRemoteURL p then ({ kind := .url, command := cmd, url := p }, none)
        else ({ kind := .remote, command := cmd, remoteName := p }, none)
    else if cmd == str "remote" then
      match rest with
      | sub :: rest2 =>
        if sub == str "set-url" then
          match positionalArgs rest2 with
          | _ :: newURL :: _ =>
            if IsLikelyRemoteURL newURL then
              ({ kind := .url, command := str "remote set-url", url := newURL,
                 notes := str "local config update; SSH key selection not required",
                 skipSSHSelection := true }, none)
            else ({ kind := .none, command := cmd }, none)
          | _ => ({ kind := .none, command := cmd }, none)
        else ({ kind := .none, command := cmd }, none)
      | [] => ({ kind := .none, command := cmd }, none)
    else ({ kind := .none, command := cmd }, none)

/-- Go `strings.ReplaceAll(s, "'", `'"'"'`)`, specialized to the
one-character needle the source uses: each single quote becomes the
five-character sequence `'"'"'`. -/
def sqEscape : List Char → List Char
  | [] => []
  | c :: rest =>
    if c = squote then squote :: dquote :: squote :: dquote :: squote :: sqEscape rest
    else c :: sqEscape rest

/-- Go `runner.shellQuote`. -/
def shellQuote (s : List Char) : List Char :=
  if s.isEmpty then [squote, squote]
  else squote :: (sqEscape s ++ [squote])

/-- Go `runner.BuildGITSSHCommand`. -/
def BuildGITSSHCommand (keyPath : List Char) : List Char :=
  str "ssh -F /dev/null -i " ++ shellQuote keyPath ++ str " -o IdentitiesOnly=yes"

/-! ## Package `internal/resolve`: the resolution orchestrator. -/

/-- Go `resolve.Result`.  `parsed` is always set on the success paths of
`FromURL`, so it is not optional here. -/
structure ResolveResult where
  url : List Char
  parsed : ParsedRemote
  sshSelectionApplies : Bool
  matchedRule : Option Rule
  keyPath : List Char
  gitSSHCommand : List Char
  matchScore : Int
  notes : List (List Char)
deriving DecidableEq

/-- The error returns of Go `resolve.FromURL`, one per return site. -/
inductive ResolveErr
  | parseErr (e : ParseErr)
  | missingConfig
  | matchFailed (e : MatchError) (hint : List Char)
  | expandKeyPath (ruleID : List Char)
deriving DecidableEq

/-- Go `resolve.AddRuleHint` (non-nil case). -/
def AddRuleHint (parsed : ParsedRemote) : List Char :=
  str "Add a rule with: mgit rule add --host " ++ parsed.host
    ++ str " --owner " ++ parsed.owner ++ str " --key ~/.ssh/<key>"

/-- The `%q`-rendered name of a transport, as `fmt.Sprintf` prints
`parsed.Transport`. -/
def transportName : Transport → List Char
  | .ssh => str "ssh"
  | .https => str "https"
  | .other => str "other"

/-- Go `resolve.FromURL`, generic over the `net/url.Parse` and
`config.ExpandPath` collaborators (`expandPath` returns `none` on failure).
A `cfg` of `none` models a nil `*config.Config`. -/
def FromURL (urlP : List Char → Option URLParts) (expandPath : List Char → Option (List Char))
    (cfg : Option Config) (rawURL : List Char) : Except ResolveErr ResolveResult :=
  match Parse urlP rawURL with
  | .error e => .error (.parseErr e)
  | .ok parsed =>
    if !parsed.IsSSH then
      .ok { url := rawURL, parsed := parsed, sshSelectionApplies := false,
            matchedRule := none, keyPath := [], gitSSHCommand := [], matchScore := 0,
            notes := [if parsed.IsHTTPS then
                        str "HTTPS remote detected: SSH key selection is not applied"
                      else
                        str "transport " ++ [dquote] ++ transportName parsed.transport
                          ++ [dquote] ++ str " is not SSH: SSH key selection is not applied"] }
    else
      match cfg with
      | none => .error .missingConfig
      | some c =>
        match Match c.rules parsed with
        | .error e => .error (.matchFailed e (AddRuleHint parsed))
        | .ok m =>
          match expandPath m.rule.key with
          | none => .error (.expandKeyPath m.rule.id)
          | some keyPath =>
            .ok { url := rawURL, parsed := parsed, sshSelectionApplies := true,
                  matchedRule := some m.rule, keyPath := keyPath,
                  gitSSHCommand := BuildGITSSHCommand keyPath,
                  matchScore := m.score, notes := [] }

/-! ## Helper lemmas -/

theorem shellQuote_eq (s : List Char) :
    shellQuote s = squote :: (sqEscape s ++ [squote]) := by
  cases s <;> rfl

theorem scpHostPath_nonempty {t h p : List Char} (hm : scpHostPath t = some (h, p)) :
    h ≠ [] ∧ p ≠ [] := by
  simp only [scpHostPath] at hm
  split at hm
  · split at hm
    · exact absurd hm (by simp)
    · rename_i hguard
      simp only [Option.some.injEq, Prod.mk.injEq] at hm
      obtain ⟨hh, hp⟩ := hm
      subst hh
      subst hp
      simp only [Bool.or_eq_true, not_or, Bool.not_eq_true] at hguard
      refine ⟨List.isEmpty_eq_false.mp ?_, List.isEmpty_eq_false.mp ?_⟩
      · exact hguard.1.1
      · exact hguard.1.2
  · exact absurd hm (by simp)

theorem scpSubmatch_nonempty {s u h p : List Char}
    (hm : scpSubmatch s = some (u, h, p)) : h ≠ [] ∧ p ≠ [] := by
  simp only [scpSubmatch] at hm
  split at hm
  · split at hm
    · rename_i host path heq
      simp only [Option.some.injEq, Prod.mk.injEq] at hm
      obtain ⟨_, hh, hp⟩ := hm
      subst hh
      subst hp
      exact scpHostPath_nonempty heq
    · rcases hsp : scpHostPath s with _ | ⟨hh, pp⟩
      · rw [hsp] at hm
        exact absurd hm (by simp)
      · rw [hsp] at hm
        simp only [Option.map_some', Option.some.injEq, Prod.mk.injEq] at hm
        obtain ⟨_, hh2, hp2⟩ := hm
        subst hh2
        subst hp2
        exact scpHostPath_nonempty hsp
  · rcases hsp : scpHostPath s with _ | ⟨hh, pp⟩
    · rw [hsp] at hm
      exact absurd hm (by simp)
    · rw [hsp] at hm
      simp only [Option.map_some', Option.some.injEq, Prod.mk.injEq] at hm
      obtain ⟨_, hh2, hp2⟩ := hm
      subst hh2
      subst hp2
      exact scpHostPath_nonempty hsp

theorem splitRepoPath_ok {raw o r c : List Char}
    (h : splitRepoPath raw = .ok (o, r, c)) : o ≠ [] ∧ r ≠ [] := by
  simp only [splitRepoPath] at h
  split at h
  · exact absurd h (by simp)
  · split at h
    · exact absurd h (by simp)
    · split at h
      · exact absurd h (by simp)
      · split at h
        · exact absurd h (by simp)
        · split at h
          · exact absurd h (by simp)
          · rename_i hrepo hdot hempty
            simp only [Except.ok.injEq, Prod.mk.injEq] at h
            obtain ⟨ho, hr, _⟩ := h
            subst ho
            subst hr
            constructor
            · simpa using hempty
            · simpa using hrepo

theorem parseSCPLike_ok_fields {raw : List Char} {pr : ParsedRemote}
    (h : parseSCPLike raw = .ok pr) :
    pr.transport = Transport.ssh ∧ pr.host ≠ [] ∧ pr.owner ≠ [] ∧ pr.repo ≠ [] := by
  unfold parseSCPLike at h
  rcases hm : scpSubmatch raw with _ | ⟨u, hh, pp⟩
  · rw [hm] at h
    exact absurd h (by simp)
  · rw [hm] at h
    dsimp only at h
    rcases hs : splitRepoPath pp with e | ⟨o, r, cp⟩
    · rw [hs] at h
      exact absurd h (by simp)
    · rw [hs] at h
      simp only [Except.ok.injEq] at h
      subst h
      exact ⟨rfl, (scpSubmatch_nonempty hm).1, (splitRepoPath_ok hs).1, (splitRepoPath_ok hs).2⟩

theorem parseURL_ok_fields {urlP : List Char → Option URLParts} {raw : List Char}
    {pr : ParsedRemote} (h : parseURL urlP raw = .ok pr) :
    pr.host ≠ [] ∧ pr.owner ≠ [] ∧ pr.repo ≠ [] := by
  unfold parseURL at h
  rcases hu : urlP raw with _ | u
  · rw [hu] at h
    exact absurd h (by simp)
  · rw [hu] at h
    dsimp only at h
    split at h
    · exact absurd h (by simp)
    · rename_i hhost
      rcases hs : splitRepoPath u.path with e | ⟨o, r, cp⟩
      · rw [hs] at h
        exact absurd h (by simp)
      · rw [hs] at h
        simp only [Except.ok.injEq] at h
        subst h
        exact ⟨by simpa using hhost, (splitRepoPath_ok hs).1, (splitRepoPath_ok hs).2⟩

theorem Match_ne_emptyHost {remote : ParsedRemote} (hh : remote.host ≠ [])
    (rules : List Rule) : Match rules remote ≠ .error MatchError.emptyHost := by
  unfold Match
  rw [if_neg (by simpa using hh)]
  cases hml : matchLoop remote rules 0 none <;> simp

/-! ## Claim C2 -/

/-- A concrete descriptor, the parse of `git@github.com:CompanyOrg/project.git`. -/
def scpExampleRemote : ParsedRemote :=
  { original := str "git@github.com:CompanyOrg/project.git", transport := .ssh,
    scheme := str "ssh", user := str "git", host := str "github.com", port := [],
    owner := str "CompanyOrg", repo := str "project",
    rawPath := str "CompanyOrg/project.git", isRemoteURL := true }

/-- C2: every `ParsedRemote` a successful `Parse` returns with transport
`ssh` or `https` has non-empty host, ownershipPath (`owner`) and repository
name (`repo`) — construction fails otherwise — and consequently the
matcher's empty-host branch (`MatchError.emptyHost`) is unreachable for it,
whatever the rule list. -/
theorem parsed_descriptor_wellformed
    (urlP : List Char → Option URLParts) (input : List Char) (pr : ParsedRemote)
    (hok : Parse urlP input = .ok pr)
    (_htr : pr.transport = Transport.ssh ∨ pr.transport = Transport.https) :
    pr.host ≠ [] ∧ pr.owner ≠ [] ∧ pr.repo ≠ [] ∧
      ∀ rules : List Rule, Match rules pr ≠ .error MatchError.emptyHost := by
  unfold Parse at hok
  dsimp only at hok
  split at hok
  · exact absurd hok (by simp)
  · split at hok
    · obtain ⟨h1, h2, h3⟩ := parseURL_ok_fields hok
      exact ⟨h1, h2, h3, fun rules => Match_ne_emptyHost h1 rules⟩
    · obtain ⟨_, h1, h2, h3⟩ := parseSCPLike_ok_fields hok
      exact ⟨h1, h2, h3, fun rules => Match_ne_emptyHost h1 rules⟩

/-- Witness for C2 at the concrete input `git@github.com:CompanyOrg/project.git`. -/
theorem parsed_descriptor_wellformed_witness :
    scpExampleRemote.host ≠ [] ∧ scpExampleRemote.owner ≠ [] ∧
      scpExampleRemote.repo ≠ [] ∧
      Match [] scpExampleRemote ≠ .error MatchError.emptyHost := by
  have h := parsed_descriptor_wellformed (fun _ => none)
    (str "git@github.com:CompanyOrg/project.git") scpExampleRemote rfl (Or.inl rfl)
  exact ⟨h.1, h.2.1, h.2.2.1, h.2.2.2 []⟩

/-! ## Claim C10 -/

/-- C10: on any input equal to its own trim, a successful `Parse` implies the
URL-likeness classifier `IsLikelyRemoteURL` accepts the input (the
classifier itself is a total `Bool`-valued function by construction and
never returns an error). -/
theorem parse_ok_islikely (urlP : List Char → Option URLParts) (s : List Char)
    (pr : ParsedRemote) (htrim : trimSpace s = s) (hok : Parse urlP s = .ok pr) :
    IsLikelyRemoteURL s = true := by
  unfold Parse at hok
  rw [htrim] at hok
  dsimp only at hok
  split at hok
  · exact absurd hok (by simp)
  · split at hok
    · rename_i hcontains
      simp [IsLikelyRemoteURL, hcontains]
    · unfold parseSCPLike at hok
      rcases hm : scpSubmatch s with _ | v
      · rw [hm] at hok
        exact absurd hok (by simp)
      · simp [IsLikelyRemoteURL, hm]

/-- Witness for C10 at the concrete input `git@github.com:CompanyOrg/project.git`. -/
theorem parse_ok_islikely_witness :
    IsLikelyRemoteURL (str "git@github.com:CompanyOrg/project.git") = true :=
  parse_ok_islikely (fun _ => none) (str "git@github.com:CompanyOrg/project.git")
    scpExampleRemote rfl rfl

/-! ## Claim C4 -/

/-- C4: whenever resolution applies credential selection, the
authentication-override string is exactly the literal `ssh -F /dev/null -i `,
then the expanded key path wrapped in single quotes with every embedded
single quote replaced by `'"'"'`, then ` -o IdentitiesOnly=yes` — so the
override always contains the key path as a single shell-quoted token. -/
theorem fromURL_override_format
    (urlP : List Char → Option URLParts) (expandPath : List Char → Option (List Char))
    (cfg : Option Config) (rawURL : List Char) (res : ResolveResult)
    (hok : FromURL urlP expandPath cfg rawURL = .ok res)
    (happ : res.sshSelectionApplies = true) :
    res.gitSSHCommand =
      str "ssh -F /dev/null -i " ++ (squote :: (sqEscape res.keyPath ++ [squote]))
        ++ str " -o IdentitiesOnly=yes" := by
  unfold FromURL at hok
  rcases hp : Parse urlP rawURL with e | parsed
  · rw [hp] at hok
    exact absurd hok (by simp)
  · rw [hp] at hok
    dsimp only at hok
    split at hok
    · simp only [Except.ok.injEq] at hok
      subst hok
      exact absurd happ (by simp)
    · rcases cfg with _ | c
      · exact absurd hok (by simp)
      · dsimp only at hok
        rcases hmm : Match c.rules parsed with e | m
        · rw [hmm] at hok
          exact absurd hok (by simp)
        · rw [hmm] at hok
          dsimp only at hok
          rcases hep : expandPath m.rule.key with _ | kp
          · rw [hep] at hok
            exact absurd hok (by simp)
          · rw [hep] at hok
            simp only [Except.ok.injEq] at hok
            subst hok
            show BuildGITSSHCommand kp = _
            rw [BuildGITSSHCommand, shellQuote_eq]

/-- A single-rule configuration used by concrete resolution examples. -/
def exampleConfig : Config :=
  { version := 1, rules := [⟨str "default", str "*", str "*", str "/k/x", 0⟩] }

/-- The descriptor parsed from `git@github.com:Org/r.git`. -/
def orgExampleRemote : ParsedRemote :=
  { original := str "git@github.com:Org/r.git", transport := .ssh,
    scheme := str "ssh", user := str "git", host := str "github.com", port := [],
    owner := str "Org", repo := str "r", rawPath := str "Org/r.git",
    isRemoteURL := true }

/-- The resolution result for `git@github.com:Org/r.git` under
`exampleConfig` with the identity key-path expansion. -/
def exampleResolution : ResolveResult :=
  { url := str "git@github.com:Org/r.git", parsed := orgExampleRemote,
    sshSelectionApplies := true,
    matchedRule := some ⟨str "default", str "*", str "*", str "/k/x", 0⟩,
    keyPath := str "/k/x", gitSSHCommand := BuildGITSSHCommand (str "/k/x"),
    matchScore := 0, notes := [] }

/-- Witness for C4 at a concrete resolution. -/
theorem fromURL_override_format_witness :
    exampleResolution.gitSSHCommand =
      str "ssh -F /dev/null -i "
        ++ (squote :: (sqEscape exampleResolution.keyPath ++ [squote]))
        ++ str " -o IdentitiesOnly=yes" :=
  fromURL_override_format (fun _ => none) (fun k => some k) (some exampleConfig)
    (str "git@github.com:Org/r.git") exampleResolution rfl rfl

/-! ## Claim C7 -/

/-- C7: when the parsed transport is not `ssh`, resolution succeeds even with
no rule set at all, with credential selection off, no matched rule, key path
or override string, and a single advisory note naming the transport; when
the transport is `ssh` and the rule set is nil, resolution fails with the
missing-configuration error (without consulting the matcher). -/
theorem fromURL_transport_gate
    (urlP : List Char → Option URLParts) (expandPath : List Char → Option (List Char))
    (rawURL : List Char) (pr : ParsedRemote) (hok : Parse urlP rawURL = .ok pr) :
    (pr.transport ≠ Transport.ssh →
      ∀ cfg : Option Config, FromURL urlP expandPath cfg rawURL = .ok
        { url := rawURL, parsed := pr, sshSelectionApplies := false, matchedRule := none,
          keyPath := [], gitSSHCommand := [], matchScore := 0,
          notes := [if pr.IsHTTPS then
                      str "HTTPS remote detected: SSH key selection is not applied"
                    else
                      str "transport " ++ [dquote] ++ transportName pr.transport
                        ++ [dquote] ++ str " is not SSH: SSH key selection is not applied"] })
    ∧ (pr.transport = Transport.ssh →
        FromURL urlP expandPath none rawURL = .error ResolveErr.missingConfig) := by
  constructor
  · intro hns cfg
    unfold FromURL
    rw [hok]
    dsimp only
    rw [if_pos]
    simp [ParsedRemote.IsSSH, hns]
  · intro hs
    unfold FromURL
    rw [hok]
    dsimp only
    rw [if_neg]
    simp [ParsedRemote.IsSSH, hs]

/-- The URL components `net/url.Parse` produces for
`https://git@github.com/Org/r.git`. -/
def httpsExampleParts : URLParts :=
  { scheme := str "https", hasUser := true, username := str "git",
    hostname := str "github.com", port := [], path := str "/Org/r.git" }

/-- The descriptor parsed from `https://git@github.com/Org/r.git`. -/
def httpsExampleRemote : ParsedRemote :=
  { original := str "https://git@github.com/Org/r.git", transport := .https,
    scheme := str "https", user := str "git", host := str "github.com", port := [],
    owner := str "Org", repo := str "r", rawPath := str "Org/r.git",
    isRemoteURL := true }

/-- Witness for C7: an HTTPS remote resolves with selection off and no
configuration, and an SSH remote with a nil rule set fails. -/
theorem fromURL_transport_gate_witness :
    FromURL (fun _ => some httpsExampleParts) (fun _ => none) none
        (str "https://git@github.com/Org/r.git") = .ok
      { url := str "https://git@github.com/Org/r.git", parsed := httpsExampleRemote,
        sshSelectionApplies := false, matchedRule := none,
        keyPath := [], gitSSHCommand := [], matchScore := 0,
        notes := [str "HTTPS remote detected: SSH key selection is not applied"] } ∧
    FromURL (fun _ => none) (fun _ => none) none (str "git@github.com:Org/r.git")
      = .error ResolveErr.missingConfig := by
  constructor
  · have h := (fromURL_transport_gate (fun _ => some httpsExampleParts) (fun _ => none)
      (str "https://git@github.com/Org/r.git") httpsExampleRemote rfl).1
      (by decide) none
    simpa using h
  · exact (fromURL_transport_gate (fun _ => none) (fun _ => none)
      (str "git@github.com:Org/r.git") orgExampleRemote rfl).2 rfl

/-! ## Claim C8 -/

/-- C8: the inferrer returns an error exactly for a leading `clone` whose
remaining tokens contain no positional argument; every other argument
vector — including the empty one and `pull` alone, which yields kind `none`
with an advisory note — produces a `GitTarget` without error. -/
theorem inferGitTarget_error_iff (args : List (List Char)) :
    ((InferGitTarget args).2 ≠ none ↔
      ∃ rest, args = str "clone" :: rest ∧ positionalArgs rest = []) ∧
    InferGitTarget [str "pull"] =
      ({ kind := .none, command := str "pull",
         notes := str "remote not specified explicitly" }, none) := by
  refine ⟨?_, rfl⟩
  cases args with
  | nil => simp [InferGitTarget]
  | cons cmd rest =>
    constructor
    · intro hne
      simp only [InferGitTarget] at hne
      by_cases hclone : cmd = str "clone"
      · subst hclone
        rw [if_neg (by decide), if_pos (by decide)] at hne
        rcases hpos : positionalArgs rest with _ | ⟨p, ps⟩
        · exact ⟨rest, rfl, hpos⟩
        · rw [hpos] at hne
          simp at hne
      · exfalso
        apply hne
        split
        · (repeat' split) <;> rfl
        · split
          · rename_i h2
            exact absurd (by simpa using h2) hclone
          · (repeat' split) <;> rfl
    · rintro ⟨rest2, heq, hpos⟩
      injection heq with hcmd hrest
      subst hcmd
      subst hrest
      simp only [InferGitTarget]
      rw [if_neg (by decide), if_pos (by decide)]
      rw [hpos]
      simp

/-! ## Claim C9 -/

/-- The positional-argument scan as claim C9 words it: every token after a
`--` token is positional (then the scan stops); before any `--`, empty
tokens are skipped, a token starting with `-` is a flag, and a flag from the
fixed value-taking set that does not contain `=` also consumes the
immediately following token; every other token is positional. -/
def positionalSpec : List (List Char) → List (List Char)
  | [] => []
  | a :: rest =>
    if a = str "--" then rest
    else if a = [] then positionalSpec rest
    else if a.head? = some '-' then
      if (a = str "-c" ∨ a = str "--config" ∨ a = str "-C" ∨ a = str "--upload-pack" ∨
          a = str "--receive-pack" ∨ a = str "-o") ∧ ¬ hasChar a '=' = true then
        match rest with
        | [] => []
        | _ :: rest2 => positionalSpec rest2
      else positionalSpec rest
    else a :: positionalSpec rest

theorem takesValue_iff (a : List Char) :
    takesValue a = true ↔
      ((a = str "-c" ∨ a = str "--config" ∨ a = str "-C" ∨ a = str "--upload-pack" ∨
        a = str "--receive-pack" ∨ a = str "-o") ∧ ¬ hasChar a '=' = true) := by
  unfold takesValue
  by_cases h : hasChar a '=' = true <;> simp [h, or_assoc]

/-- C9: the source's positional-argument scan computes exactly the scan the
specification describes, and in particular
`infer ["fetch", "--prune", "mirror"]` finds the remote name `mirror`. -/
theorem positionalArgs_spec :
    (∀ args : List (List Char), positionalArgs args = positionalSpec args) ∧
    InferGitTarget [str "fetch", str "--prune", str "mirror"] =
      ({ kind := .remote, command := str "fetch", remoteName := str "mirror" }, none) := by
  refine ⟨?_, rfl⟩
  have H : ∀ n (args : List (List Char)), args.length ≤ n →
      positionalArgs args = positionalSpec args := by
    intro n
    induction n with
    | zero =>
      intro args hlen
      rw [List.length_eq_zero.mp (Nat.le_zero.mp hlen)]
      rfl
    | succ n ih =>
      intro args hlen
      match args with
      | [] => rfl
      | a :: rest =>
        simp only [List.length_cons, Nat.succ_le_succ_iff] at hlen
        rw [positionalArgs.eq_def, positionalSpec.eq_def]
        dsimp only
        by_cases h1 : a = str "--"
        · rw [if_pos (by simpa using h1), if_pos h1]
        · rw [if_neg (by simpa using h1), if_neg h1]
          by_cases h2 : a = []
          · rw [if_pos (by simpa [List.isEmpty_iff] using h2), if_pos h2, ih rest hlen]
          · rw [if_neg (by simpa [List.isEmpty_iff] using h2), if_neg h2]
            by_cases h3 : a.head? = some '-'
            · rw [if_pos (by simpa using h3), if_pos h3]
              by_cases h4 : takesValue a = true
              · rw [if_pos h4, if_pos ((takesValue_iff a).mp h4)]
                rcases rest with _ | ⟨b, rest2⟩
                · rfl
                · exact ih rest2 (by simp only [List.length_cons] at hlen; omega)
              · rw [if_neg h4, if_neg (fun hc => h4 ((takesValue_iff a).mpr hc))]
                exact ih rest hlen
            · rw [if_neg (by simpa using h3), if_neg h3]
              rw [ih rest hlen]
  intro args
  exact H args.length args le_rfl

/-! ## Claim C6 (corrected: the shorthand host may contain `/`) -/

/-- Counterexample to C6 as stated: the input `a/b:c/d` has no `://`, its
text before the first colon contains `/`, yet the parse succeeds (host
`a/b`, transport ssh) instead of failing with the unsupported-format
error. -/
theorem shorthand_slash_host_counterexample :
    (Parse (fun _ => none) (str "a/b:c/d")).toOption.map ParsedRemote.host
        = some (str "a/b") ∧
      hasChar (str "a/b") '/' = true ∧
      (Parse (fun _ => none) (str "a/b:c/d")).toOption.map ParsedRemote.transport
        = some Transport.ssh := by
  exact ⟨rfl, rfl, rfl⟩

/-- C6 amended: a shorthand-form parse succeeds exactly when the scp-like
pattern matches — the host being the text up to the matching colon, which is
non-empty but may contain `/` — and the remainder splits into owner and
repository; every successful shorthand parse yields transport `ssh`. -/
theorem parseSCPLike_success_iff (raw : List Char) :
    ((∃ pr, parseSCPLike raw = .ok pr) ↔
      ∃ u h p, scpSubmatch raw = some (u, h, p) ∧
        (splitRepoPath p).toOption.isSome = true) ∧
    ∀ pr, parseSCPLike raw = .ok pr → pr.transport = Transport.ssh ∧ pr.host ≠ [] := by
  constructor
  · constructor
    · rintro ⟨pr, hok⟩
      unfold parseSCPLike at hok
      rcases hm : scpSubmatch raw with _ | ⟨u, hh, pp⟩
      · rw [hm] at hok
        exact absurd hok (by simp)
      · rw [hm] at hok
        dsimp only at hok
        rcases hs : splitRepoPath pp with e | v
        · rw [hs] at hok
          exact absurd hok (by simp)
        · refine ⟨u, hh, pp, rfl, ?_⟩
          rw [hs]
          rfl
    · rintro ⟨u, hh, pp, hm, hs⟩
      unfold parseSCPLike
      rw [hm]
      dsimp only
      rcases hsp : splitRepoPath pp with e | ⟨o, r, cp⟩
      · rw [hsp] at hs
        simp [Except.toOption] at hs
      · exact ⟨_, rfl⟩
  · intro pr hok
    obtain ⟨h1, h2, _, _⟩ := parseSCPLike_ok_fields hok
    exact ⟨h1, h2⟩

/-! ## Claim C5 (corrected: the ownershipPath is path-cleaned, not a plain
join of the preceding segments) -/

/-- Counterexample to C5 as stated: for `git@h.example:a/./b/c` the
preceding segments are `a`, `.`, `b`, whose plain `/`-join is `a/./b`, but
the parse returns ownershipPath `a/b` (the `path.Clean` of the join). -/
theorem ownership_join_counterexample :
    (Parse (fun _ => none) (str "git@h.example:a/./b/c")).toOption.map ParsedRemote.owner
        = some (str "a/b") ∧
      pathSegments (str "a/./b/c") = [str "a", str ".", str "b", str "c"] ∧
      joinSlash [str "a", str ".", str "b"] = str "a/./b" ∧
      ¬ str "a/b" = str "a/./b" := by
  exact ⟨rfl, rfl, rfl, by decide⟩

/-- C5 amended: path splitting trims whitespace, one leading `/`, a leading
`./` and one trailing `/`, splits on `/` dropping empty segments, fails when
fewer than two segments remain, strips one trailing `.git` from the last
segment for the repositoryName (failing if it becomes empty), and takes as
ownershipPath the preceding segments joined with `/` and lexically
normalized as by Go `path.Clean` (collapsing `.`, resolving `..`), failing
when the normalized owner is empty; so `/Group/subgroup/repo.git` splits
into ownershipPath `Group/subgroup` and repositoryName `repo`. -/
theorem splitRepoPath_spec (raw o r c : List Char) :
    (splitRepoPath raw = .ok (o, r, c) →
      2 ≤ (pathSegments raw).length ∧
      r = stripGitSuffix ((pathSegments raw).getLastD []) ∧ r ≠ [] ∧
      o = pathClean (joinSlash (pathSegments raw).dropLast) ∧ o ≠ [] ∧ o ≠ str "." ∧
      c = joinSlash (pathSegments raw)) ∧
    ((pathSegments raw).length < 2 → ∃ e, splitRepoPath raw = .error e) ∧
    splitRepoPath (str "/Group/subgroup/repo.git")
      = .ok (str "Group/subgroup", str "repo", str "Group/subgroup/repo.git") := by
  refine ⟨?_, ?_, rfl⟩
  · intro h
    simp only [splitRepoPath] at h
    simp only [pathSegments]
    split at h
    · exact absurd h (by simp)
    · split at h
      · exact absurd h (by simp)
      · split at h
        · exact absurd h (by simp)
        · split at h
          · exact absurd h (by simp)
          · split at h
            · exact absurd h (by simp)
            · rename_i hlen hrepo hdot hempty
              simp only [Except.ok.injEq, Prod.mk.injEq] at h
              obtain ⟨ho, hr, hc⟩ := h
              subst ho
              subst hr
              subst hc
              refine ⟨by omega, rfl, by simpa using hrepo, rfl, by simpa using hempty,
                hdot, rfl⟩
  · intro hlt
    simp only [pathSegments] at hlt
    simp only [splitRepoPath]
    split
    · exact ⟨_, rfl⟩
    · exact ⟨_, rfl⟩

/-! ## The matcher's score: basic facts -/

theorem matchRule_fst_iff (r : Rule) (remote : ParsedRemote) :
    (matchRule r remote).1 = true ↔
      (goMatch (normalizePattern (toLowerChars r.host)) (toLowerChars remote.host)
          = some true ∧
        goMatch (normalizePattern (toLowerChars r.owner)) (toLowerChars remote.owner)
          = some true) := by
  unfold matchRule
  rcases h1 : goMatch (normalizePattern (toLowerChars r.host)) (toLowerChars remote.host)
    with _ | b1
  · simp [h1]
  · cases b1
    · simp [h1]
    · rcases h2 : goMatch (normalizePattern (toLowerChars r.owner))
        (toLowerChars remote.owner) with _ | b2
      · simp [h1, h2]
      · cases b2 <;> simp [h1, h2]

theorem matchRule_score (r : Rule) (remote : ParsedRemote)
    (hc : (matchRule r remote).1 = true) :
    (matchRule r remote).2 =
      wrap64 (wrap64 (wrap64 (wrap64 (r.priority * 1000)
            + specificityScore (normalizePattern (toLowerChars r.host))
                (toLowerChars remote.host))
          + specificityScore (normalizePattern (toLowerChars r.owner))
              (toLowerChars remote.owner))
        + wrap64 (literalChars (normalizePattern (toLowerChars r.host))
            + literalChars (normalizePattern (toLowerChars r.owner)))) := by
  obtain ⟨h1, h2⟩ := (matchRule_fst_iff r remote).mp hc
  unfold matchRule
  dsimp only
  rw [h1, h2]

theorem wrap64_eq_self {n : Int} (hlo : -9223372036854775808 ≤ n)
    (hhi : n < 9223372036854775808) : wrap64 n = n := by
  unfold wrap64
  rw [Int.emod_eq_of_lt (by omega) (by omega)]
  omega

theorem specificityScore_nonneg (p v : List Char) : 0 ≤ specificityScore p v := by
  unfold specificityScore
  split_ifs <;> norm_num

theorem specificityScore_le (p v : List Char) : specificityScore p v ≤ 400 := by
  unfold specificityScore
  split_ifs <;> norm_num

theorem literalChars_nonneg (p : List Char) : 0 ≤ literalChars p := by
  unfold literalChars
  exact Int.natCast_nonneg _

/-- When no arithmetic step leaves the 64-bit range — priorities within
`±9223372036854774` and literal counts summing to at most `199` — the
wrapped score equals the plain formula. -/
theorem ruleScore_eq_of_no_overflow (r : Rule) (remote : ParsedRemote)
    (hc : isCandidate r remote = true)
    (hpl : -9223372036854774 ≤ r.priority)
    (hpu : r.priority ≤ 9223372036854774)
    (hl : literalChars (normalizePattern (toLowerChars r.host))
        + literalChars (normalizePattern (toLowerChars r.owner)) ≤ 199) :
    ruleScore r remote =
      r.priority * 1000
        + specificityScore (normalizePattern (toLowerChars r.host)) (toLowerChars remote.host)
        + specificityScore (normalizePattern (toLowerChars r.owner)) (toLowerChars remote.owner)
        + (literalChars (normalizePattern (toLowerChars r.host))
            + literalChars (normalizePattern (toLowerChars r.owner))) := by
  unfold ruleScore
  rw [matchRule_score r remote hc]
  set s1 := specificityScore (normalizePattern (toLowerChars r.host))
    (toLowerChars remote.host) with hs1
  set s2 := specificityScore (normalizePattern (toLowerChars r.owner))
    (toLowerChars remote.owner) with hs2
  set l1 := literalChars (normalizePattern (toLowerChars r.host)) with hl1
  set l2 := literalChars (normalizePattern (toLowerChars r.owner)) with hl2
  have b1 : 0 ≤ s1 := specificityScore_nonneg _ _
  have b2 : s1 ≤ 400 := specificityScore_le _ _
  have b3 : 0 ≤ s2 := specificityScore_nonneg _ _
  have b4 : s2 ≤ 400 := specificityScore_le _ _
  have b5 : 0 ≤ l1 := literalChars_nonneg _
  have b6 : 0 ≤ l2 := literalChars_nonneg _
  have e1 : wrap64 (r.priority * 1000) = r.priority * 1000 :=
    wrap64_eq_self (by omega) (by omega)
  rw [e1]
  have e2 : wrap64 (l1 + l2) = l1 + l2 := wrap64_eq_self (by omega) (by omega)
  rw [e2]
  have e3 : wrap64 (r.priority * 1000 + s1) = r.priority * 1000 + s1 :=
    wrap64_eq_self (by omega) (by omega)
  rw [e3]
  have e4 : wrap64 (r.priority * 1000 + s1 + s2) = r.priority * 1000 + s1 + s2 :=
    wrap64_eq_self (by omega) (by omega)
  rw [e4]
  have e5 : wrap64 (r.priority * 1000 + s1 + s2 + (l1 + l2))
      = r.priority * 1000 + s1 + s2 + (l1 + l2) :=
    wrap64_eq_self (by omega) (by omega)
  rw [e5]

/-! ## Claim C3 (corrected: literal-character counts are unbounded, so the
priority term dominates only when they are small) -/

/-- A 200-character host used to defeat the priority term. -/
def longHost : List Char := List.replicate 200 'a'

/-- A remote at `longHost` with owner `o`. -/
def longHostRemote : ParsedRemote :=
  { original := [], transport := .ssh, scheme := [], user := [], host := longHost,
    port := [], owner := str "o", repo := str "r", rawPath := [], isRemoteURL := true }

/-- A priority-1 catch-all rule. -/
def cRuleHi : Rule := ⟨str "hi", str "*", str "*", str "k", 1⟩

/-- A priority-0 rule whose host pattern is the 200-character literal. -/
def cRuleLo : Rule := ⟨str "lo", longHost, str "o", str "k", 0⟩

set_option maxRecDepth 100000 in
/-- Counterexample to C3 as stated: both rules are candidates and the
priority-0 rule with a 200-character literal host pattern scores strictly
higher than the priority-1 catch-all (1001 vs 1000), and wins the match. -/
theorem priority_dominance_counterexample :
    isCandidate cRuleHi longHostRemote = true ∧
      isCandidate cRuleLo longHostRemote = true ∧
      cRuleLo.priority < cRuleHi.priority ∧
      ruleScore cRuleHi longHostRemote < ruleScore cRuleLo longHostRemote ∧
      (Match [cRuleHi, cRuleLo] longHostRemote).toOption.map MatchResult.rule
        = some cRuleLo := by
  refine ⟨by decide, by decide, by decide, by decide, by decide⟩

/-- C3 amended: among two candidate rules, the one with strictly higher
priority scores strictly higher (and so wins the match) whenever no step of
the 64-bit score computation overflows and the literal terms are small:
concretely, when the lower-priority rule's priority is at least
`-9223372036854774`, the higher-priority rule's priority is at most
`9223372036854774`, and both rules' combined literal-character counts are
at most 199.  Each specificity term lies in `[0, 400]`, so under these
bounds every wrap is the identity and the gap of 1000 per priority step
dominates; outside them the dominance fails — for longer literal patterns
(the counterexample) and also for priorities whose product with 1000 wraps
in Go's 64-bit arithmetic. -/
theorem priority_dominates_bounded (remote : ParsedRemote) (r1 r2 : Rule)
    (h1 : isCandidate r1 remote = true) (h2 : isCandidate r2 remote = true)
    (hp : r2.priority < r1.priority)
    (hpl : -9223372036854774 ≤ r2.priority)
    (hpu : r1.priority ≤ 9223372036854774)
    (hl1 : literalChars (normalizePattern (toLowerChars r1.host))
            + literalChars (normalizePattern (toLowerChars r1.owner)) ≤ 199)
    (hl2 : literalChars (normalizePattern (toLowerChars r2.host))
            + literalChars (normalizePattern (toLowerChars r2.owner)) ≤ 199) :
    ruleScore r2 remote < ruleScore r1 remote := by
  rw [ruleScore_eq_of_no_overflow r1 remote h1 (by omega) hpu hl1,
    ruleScore_eq_of_no_overflow r2 remote h2 hpl (by omega) hl2]
  have b1 := specificityScore_le (normalizePattern (toLowerChars r2.host))
    (toLowerChars remote.host)
  have b2 := specificityScore_le (normalizePattern (toLowerChars r2.owner))
    (toLowerChars remote.owner)
  have b3 := specificityScore_nonneg (normalizePattern (toLowerChars r1.host))
    (toLowerChars remote.host)
  have b4 := specificityScore_nonneg (normalizePattern (toLowerChars r1.owner))
    (toLowerChars remote.owner)
  have b5 := literalChars_nonneg (normalizePattern (toLowerChars r1.host))
  have b6 := literalChars_nonneg (normalizePattern (toLowerChars r1.owner))
  have hmul : (r2.priority + 1) * 1000 ≤ r1.priority * 1000 :=
    Int.mul_le_mul_of_nonneg_right (by omega) (by norm_num)
  linarith [hmul]

/-- Witness for the amended C3 at concrete candidate rules. -/
theorem priority_dominates_bounded_witness :
    ruleScore ⟨str "B", str "github.com", str "Org", str "k", 0⟩ orgExampleRemote <
      ruleScore ⟨str "A", str "*", str "*", str "k", 1⟩ orgExampleRemote :=
  priority_dominates_bounded orgExampleRemote
    ⟨str "A", str "*", str "*", str "k", 1⟩
    ⟨str "B", str "github.com", str "Org", str "k", 0⟩
    (by decide) (by decide) (by decide) (by decide) (by decide)
    (by decide) (by decide)

/-! ## Claim C1: the full characterization of `Match` -/

/-- The rules of a list paired with their positions, starting at `i`. -/
def idxFrom (i : Nat) : List Rule → List (Nat × Rule)
  | [] => []
  | r :: rs => (i, r) :: idxFrom (i + 1) rs

theorem idxFrom_mem_iff (rs : List Rule) :
    ∀ (i j : Nat) (r : Rule),
      (j, r) ∈ idxFrom i rs ↔ ∃ k, k < rs.length ∧ j = i + k ∧ rs[k]? = some r := by
  induction rs with
  | nil => simp [idxFrom]
  | cons a as ih =>
    intro i j r
    simp only [idxFrom, List.mem_cons, ih]
    constructor
    · rintro (h | ⟨k, hk, hj, hg⟩)
      · obtain ⟨hj, hr⟩ := Prod.mk.injEq .. ▸ h
        exact ⟨0, by simp, by omega, by simp [hr]⟩
      · exact ⟨k + 1, by simpa using hk, by omega, by simpa using hg⟩
    · rintro ⟨k, hk, hj, hg⟩
      match k with
      | 0 =>
        left
        simp only [List.getElem?_cons_zero, Option.some.injEq] at hg
        rw [hg]
        simp [hj]
      | k + 1 =>
        right
        exact ⟨k, by simpa using hk, by omega, by simpa using hg⟩

theorem matchLoop_cons_false {remote : ParsedRemote} {r : Rule} {rs : List Rule}
    {i : Nat} {best : Option MatchResult} {score : Int}
    (hmr : matchRule r remote = (false, score)) :
    matchLoop remote (r :: rs) i best = matchLoop remote rs (i + 1) best := by
  rw [matchLoop.eq_def]
  dsimp only
  rw [hmr]
  rfl

theorem matchLoop_cons_true_none {remote : ParsedRemote} {r : Rule} {rs : List Rule}
    {i : Nat} {score : Int} (hmr : matchRule r remote = (true, score)) :
    matchLoop remote (r :: rs) i none =
      matchLoop remote rs (i + 1) (some ⟨r, score, i⟩) := by
  rw [matchLoop.eq_def]
  dsimp only
  rw [hmr]
  rfl

theorem matchLoop_cons_true_some {remote : ParsedRemote} {r : Rule} {rs : List Rule}
    {i : Nat} {b : MatchResult} {score : Int}
    (hmr : matchRule r remote = (true, score)) :
    matchLoop remote (r :: rs) i (some b) =
      if score > b.score then matchLoop remote rs (i + 1) (some ⟨r, score, i⟩)
      else matchLoop remote rs (i + 1) (some b) := by
  rw [matchLoop.eq_def]
  dsimp only
  rw [hmr]
  rfl

theorem matchLoop_some_isSome (remote : ParsedRemote) :
    ∀ (rs : List Rule) (i : Nat) (b : MatchResult),
      (matchLoop remote rs i (some b)).isSome = true := by
  intro rs
  induction rs with
  | nil =>
    intro i b
    rfl
  | cons r rs ih =>
    intro i b
    rcases hmr : matchRule r remote with ⟨ok, score⟩
    cases ok
    · rw [matchLoop_cons_false hmr]
      exact ih (i + 1) b
    · rw [matchLoop_cons_true_some hmr]
      split
      · exact ih (i + 1) _
      · exact ih (i + 1) _

theorem matchLoop_none_iff (remote : ParsedRemote) :
    ∀ (rs : List Rule) (i : Nat),
      matchLoop remote rs i none = none ↔
        ∀ r ∈ rs, (matchRule r remote).1 = false := by
  intro rs
  induction rs with
  | nil =>
    intro i
    simp [matchLoop]
  | cons r rs ih =>
    intro i
    rcases hmr : matchRule r remote with ⟨ok, score⟩
    cases ok
    · rw [matchLoop_cons_false hmr, ih (i + 1)]
      constructor
      · intro hall x hx
        rcases List.mem_cons.mp hx with h | h
        · subst h
          rw [hmr]
        · exact hall x h
      · intro hall x hx
        exact hall x (List.mem_cons_of_mem _ hx)
    · rw [matchLoop_cons_true_none hmr]
      constructor
      · intro hnone
        have hs := matchLoop_some_isSome remote rs (i + 1) ⟨r, score, i⟩
        rw [hnone] at hs
        exact absurd hs (by simp)
      · intro hall
        have hfalse := hall r (by simp)
        rw [hmr] at hfalse
        exact absurd hfalse (by simp)

theorem matchLoop_ok_spec (remote : ParsedRemote) :
    ∀ (rs : List Rule) (i : Nat) (b0 : Option MatchResult) (res : MatchResult),
      (∀ b, b0 = some b →
        ((matchRule b.rule remote).1 = true ∧ b.score = (matchRule b.rule remote).2) ∧
          b.index < i) →
      matchLoop remote rs i b0 = some res →
      ((matchRule res.rule remote).1 = true ∧ res.score = (matchRule res.rule remote).2)
        ∧ (b0 = some res ∨ (res.index, res.rule) ∈ idxFrom i rs)
        ∧ (∀ jr ∈ idxFrom i rs, (matchRule jr.2 remote).1 = true →
            (matchRule jr.2 remote).2 ≤ res.score)
        ∧ (∀ b, b0 = some b → b.score ≤ res.score ∧ (b ≠ res → b.score < res.score))
        ∧ (∀ jr ∈ idxFrom i rs, jr.1 < res.index → (matchRule jr.2 remote).1 = true →
            (matchRule jr.2 remote).2 < res.score) := by
  intro rs
  induction rs with
  | nil =>
    intro i b0 res hv hloop
    have hb0 : b0 = some res := hloop
    refine ⟨(hv res hb0).1, Or.inl hb0, by simp [idxFrom], ?_, by simp [idxFrom]⟩
    intro b hb
    rw [hb0] at hb
    have : b = res := by
      injection hb with h
      exact h.symm
    subst this
    exact ⟨le_refl _, fun hne => absurd rfl hne⟩
  | cons r rs ih =>
    intro i b0 res hv hloop
    rcases hmr : matchRule r remote with ⟨ok, score⟩
    cases ok
    · -- r is not a candidate
      rw [matchLoop_cons_false hmr] at hloop
      have hv' : ∀ b, b0 = some b →
          ((matchRule b.rule remote).1 = true ∧ b.score = (matchRule b.rule remote).2) ∧
            b.index < i + 1 := by
        intro b hb
        exact ⟨(hv b hb).1, Nat.lt_succ_of_lt (hv b hb).2⟩
      obtain ⟨c1, c2, c3, c4, c5⟩ := ih (i + 1) b0 res hv' hloop
      refine ⟨c1, ?_, ?_, c4, ?_⟩
      · rcases c2 with h | h
        · exact Or.inl h
        · exact Or.inr (List.mem_cons_of_mem _ h)
      · intro jr hjr hc
        rcases List.mem_cons.mp hjr with h | h
        · subst h
          rw [hmr] at hc
          exact absurd hc (by simp)
        · exact c3 jr h hc
      · intro jr hjr hlt hc
        rcases List.mem_cons.mp hjr with h | h
        · subst h
          rw [hmr] at hc
          exact absurd hc (by simp)
        · exact c5 jr h hlt hc
    · -- r is a candidate with the given score
      have hcand : (matchRule r remote).1 = true ∧ score = (matchRule r remote).2 := by
        rw [hmr]
        exact ⟨rfl, rfl⟩
      have hv' : ∀ b', some (⟨r, score, i⟩ : MatchResult) = some b' →
          ((matchRule b'.rule remote).1 = true ∧ b'.score = (matchRule b'.rule remote).2) ∧
            b'.index < i + 1 := by
        intro b' hb'
        injection hb' with hb'
        subst hb'
        exact ⟨hcand, Nat.lt_succ_self i⟩
      rcases b0 with _ | b
      · -- no best yet: r becomes the best
        rw [matchLoop_cons_true_none hmr] at hloop
        obtain ⟨c1, c2, c3, c4, c5⟩ := ih (i + 1) (some ⟨r, score, i⟩) res hv' hloop
        have hcscore := c4 ⟨r, score, i⟩ rfl
        refine ⟨c1, ?_, ?_, fun b hb => absurd hb (by simp), ?_⟩
        · rcases c2 with h | h
          · injection h with h
            subst h
            exact Or.inr (by simp [idxFrom])
          · exact Or.inr (List.mem_cons_of_mem _ h)
        · intro jr hjr hc
          rcases List.mem_cons.mp hjr with h | h
          · subst h
            dsimp only at hc ⊢
            rw [← hcand.2]
            exact hcscore.1
          · exact c3 jr h hc
        · intro jr hjr hlt hc
          rcases List.mem_cons.mp hjr with h | h
          · subst h
            dsimp only at hlt hc ⊢
            have hne : (⟨r, score, i⟩ : MatchResult) ≠ res := by
              intro heq
              rw [← heq] at hlt
              exact absurd hlt (by simp)
            rw [← hcand.2]
            exact hcscore.2 hne
          · exact c5 jr h hlt hc
      · -- an existing best b
        rw [matchLoop_cons_true_some hmr] at hloop
        have hvb := hv b rfl
        split at hloop
        · -- the new candidate strictly beats b
          rename_i hgt
          obtain ⟨c1, c2, c3, c4, c5⟩ := ih (i + 1) (some ⟨r, score, i⟩) res hv' hloop
          have hcscore := c4 ⟨r, score, i⟩ rfl
          refine ⟨c1, ?_, ?_, ?_, ?_⟩
          · rcases c2 with h | h
            · injection h with h
              subst h
              exact Or.inr (by simp [idxFrom])
            · exact Or.inr (List.mem_cons_of_mem _ h)
          · intro jr hjr hc
            rcases List.mem_cons.mp hjr with h | h
            · subst h
              dsimp only at hc ⊢
              rw [← hcand.2]
              exact hcscore.1
            · exact c3 jr h hc
          · intro b' hb'
            injection hb' with hb'
            have hlt2 : b'.score < score := by
              rw [← hb']
              exact hgt
            constructor
            · exact le_of_lt (lt_of_lt_of_le hlt2 hcscore.1)
            · intro _
              exact lt_of_lt_of_le hlt2 hcscore.1
          · intro jr hjr hlt hc
            rcases List.mem_cons.mp hjr with h | h
            · subst h
              dsimp only at hlt hc ⊢
              have hne : (⟨r, score, i⟩ : MatchResult) ≠ res := by
                intro heq
                rw [← heq] at hlt
                exact absurd hlt (by simp)
              rw [← hcand.2]
              exact hcscore.2 hne
            · exact c5 jr h hlt hc
        · -- b is kept (the candidate does not strictly beat it)
          rename_i hle
          have hv'' : ∀ b', some b = some b' →
              ((matchRule b'.rule remote).1 = true ∧ b'.score = (matchRule b'.rule remote).2) ∧
                b'.index < i + 1 := by
            intro b' hb'
            injection hb' with hb'
            subst hb'
            exact ⟨hvb.1, Nat.lt_succ_of_lt hvb.2⟩
          obtain ⟨c1, c2, c3, c4, c5⟩ := ih (i + 1) (some b) res hv'' hloop
          have hbscore := c4 b rfl
          have hscore_le : score ≤ b.score := by omega
          refine ⟨c1, ?_, ?_, ?_, ?_⟩
          · rcases c2 with h | h
            · injection h with h
              exact Or.inl (by rw [h])
            · exact Or.inr (List.mem_cons_of_mem _ h)
          · intro jr hjr hc
            rcases List.mem_cons.mp hjr with h | h
            · subst h
              dsimp only at hc ⊢
              rw [← hcand.2]
              exact le_trans hscore_le hbscore.1
            · exact c3 jr h hc
          · intro b' hb'
            injection hb' with hb'
            exact hb' ▸ hbscore
          · intro jr hjr hlt hc
            rcases List.mem_cons.mp hjr with h | h
            · subst h
              dsimp only at hlt hc ⊢
              have hne : b ≠ res := by
                intro heq
                have hidx := hvb.2
                rw [heq] at hidx
                omega
              rw [← hcand.2]
              exact lt_of_le_of_lt hscore_le (hbscore.2 hne)
            · exact c5 jr h hlt hc

/-- C1 (amended): for a remote with non-empty host, a rule is a candidate
exactly when both its lower-cased, whitespace-trimmed, `*`-defaulted
patterns glob-match the lower-cased host and ownershipPath; `Match` fails
with the no-rule-matched error carrying the descriptor's host and
ownershipPath exactly when no candidate exists (so an empty rule list
always fails); otherwise it returns the earliest candidate of maximal
score, with earlier rules winning ties — the score being
`priority*1000 + specificity + specificity + (literalChars + literalChars)`
computed in Go's 64-bit two's-complement integer arithmetic, each operation
wrapping on overflow (`wrap64`). -/
theorem Match_spec (rules : List Rule) (remote : ParsedRemote)
    (hhost : remote.host ≠ []) :
    (∀ r : Rule, isCandidate r remote = true ↔
        (goMatch (normalizePattern (toLowerChars r.host)) (toLowerChars remote.host)
            = some true ∧
          goMatch (normalizePattern (toLowerChars r.owner)) (toLowerChars remote.owner)
            = some true))
    ∧ (∀ r : Rule, isCandidate r remote = true →
        ruleScore r remote =
          wrap64 (wrap64 (wrap64 (wrap64 (r.priority * 1000)
                + specificityScore (normalizePattern (toLowerChars r.host))
                    (toLowerChars remote.host))
              + specificityScore (normalizePattern (toLowerChars r.owner))
                  (toLowerChars remote.owner))
            + wrap64 (literalChars (normalizePattern (toLowerChars r.host))
                + literalChars (normalizePattern (toLowerChars r.owner)))))
    ∧ (Match rules remote
          = .error (.noRuleMatched remote.host remote.owner) ↔
        ∀ r ∈ rules, isCandidate r remote = false)
    ∧ ((∃ res, Match rules remote = .ok res) ↔
        ∃ r ∈ rules, isCandidate r remote = true)
    ∧ (∀ res, Match rules remote = .ok res →
        rules[res.index]? = some res.rule ∧ isCandidate res.rule remote = true ∧
          res.score = ruleScore res.rule remote ∧
          (∀ (j : Nat) (r : Rule), rules[j]? = some r → isCandidate r remote = true →
            ruleScore r remote ≤ res.score) ∧
          (∀ (j : Nat) (r : Rule), rules[j]? = some r → j < res.index →
            isCandidate r remote = true → ruleScore r remote < res.score)) := by
  have hMatch : Match rules remote =
      (match matchLoop remote rules 0 none with
        | none => .error (.noRuleMatched remote.host remote.owner)
        | some best => .ok best) := by
    unfold Match
    rw [if_neg (by simpa using hhost)]
  have hv0 : ∀ b : MatchResult, (none : Option MatchResult) = some b →
      ((matchRule b.rule remote).1 = true ∧ b.score = (matchRule b.rule remote).2) ∧
        b.index < 0 := by
    intro b hb
    exact absurd hb (by simp)
  refine ⟨fun r => matchRule_fst_iff r remote, fun r hc => matchRule_score r remote hc,
    ?_, ?_, ?_⟩
  · rcases hml : matchLoop remote rules 0 none with _ | b
    · rw [hml] at hMatch
      have hnone := (matchLoop_none_iff remote rules 0).mp hml
      constructor
      · intro _
        exact hnone
      · intro _
        exact hMatch
    · rw [hml] at hMatch
      constructor
      · intro h
        rw [hMatch] at h
        exact absurd h (by simp)
      · intro hall
        obtain ⟨c1, c2, _, _, _⟩ := matchLoop_ok_spec remote rules 0 none b hv0 hml
        rcases c2 with h | h
        · exact absurd h (by simp)
        · obtain ⟨k, hk, _, hg⟩ := (idxFrom_mem_iff rules 0 b.index b.rule).mp h
          have hmem : b.rule ∈ rules := by
            have := List.getElem?_eq_some.mp hg
            obtain ⟨hlt, hget⟩ := this
            rw [← hget]
            exact List.getElem_mem ..
          have hfalse := hall b.rule hmem
          unfold isCandidate at hfalse
          rw [c1.1] at hfalse
          exact absurd hfalse (by simp)
  · rcases hml : matchLoop remote rules 0 none with _ | b
    · rw [hml] at hMatch
      have hnone := (matchLoop_none_iff remote rules 0).mp hml
      constructor
      · rintro ⟨res, hres⟩
        rw [hMatch] at hres
        exact absurd hres (by simp)
      · rintro ⟨r, hmem, hc⟩
        have hfd := hnone r hmem
        unfold isCandidate at hc
        rw [hfd] at hc
        exact absurd hc (by simp)
    · rw [hml] at hMatch
      constructor
      · intro _
        obtain ⟨c1, c2, _, _, _⟩ := matchLoop_ok_spec remote rules 0 none b hv0 hml
        rcases c2 with h | h
        · exact absurd h (by simp)
        · obtain ⟨k, hk, _, hg⟩ := (idxFrom_mem_iff rules 0 b.index b.rule).mp h
          have hmem : b.rule ∈ rules := by
            obtain ⟨hlt, hget⟩ := List.getElem?_eq_some.mp hg
            rw [← hget]
            exact List.getElem_mem ..
          exact ⟨b.rule, hmem, c1.1⟩
      · intro _
        exact ⟨b, hMatch⟩
  · intro res hres
    rcases hml : matchLoop remote rules 0 none with _ | b
    · rw [hml] at hMatch
      rw [hMatch] at hres
      exact absurd hres (by simp)
    · rw [hml] at hMatch
      rw [hMatch] at hres
      have hbres : b = res := by
        injection hres with h
      obtain ⟨c1, c2, c3, _, c5⟩ := matchLoop_ok_spec remote rules 0 none res hv0
        (hbres ▸ hml)
      refine ⟨?_, c1.1, c1.2, ?_, ?_⟩
      · rcases c2 with h | h
        · exact absurd h (by simp)
        · obtain ⟨k, hk, hj, hg⟩ := (idxFrom_mem_iff rules 0 res.index res.rule).mp h
          have : k = res.index := by omega
          rw [← this]
          exact hg
      · intro j r hg hc
        have hjlen : j < rules.length := (List.getElem?_eq_some.mp hg).1
        have hmem : (j, r) ∈ idxFrom 0 rules :=
          (idxFrom_mem_iff rules 0 j r).mpr ⟨j, hjlen, by omega, hg⟩
        exact c3 (j, r) hmem hc
      · intro j r hg hj hc
        have hjlen : j < rules.length := (List.getElem?_eq_some.mp hg).1
        have hmem : (j, r) ∈ idxFrom 0 rules :=
          (idxFrom_mem_iff rules 0 j r).mpr ⟨j, hjlen, by omega, hg⟩
        exact c5 (j, r) hmem hj hc

/-- Witness for C1: the empty rule list fails with the no-rule-matched error
carrying the descriptor's host and owner. -/
theorem Match_spec_witness :
    Match [] scpExampleRemote
      = .error (.noRuleMatched (str "github.com") (str "CompanyOrg")) :=
  ((Match_spec [] scpExampleRemote (by decide)).2.2.1).mpr (by simp)

/-- Claim C1's score formula read over unbounded integers, word for word. -/
def scoreFormulaUnbounded (r : Rule) (remote : ParsedRemote) : Int :=
  r.priority * 1000
    + specificityScore (normalizePattern (toLowerChars r.host)) (toLowerChars remote.host)
    + specificityScore (normalizePattern (toLowerChars r.owner)) (toLowerChars remote.owner)
    + (literalChars (normalizePattern (toLowerChars r.host))
        + literalChars (normalizePattern (toLowerChars r.owner)))

/-- A catch-all rule whose priority, a legal int64 value, makes
`priority * 1000` overflow Go's 64-bit `int`. -/
def hugePriorityRule : Rule := ⟨str "huge", str "*", str "*", str "k", 9223372036854776⟩

/-- A catch-all rule with priority 0. -/
def zeroPriorityRule : Rule := ⟨str "zero", str "*", str "*", str "k", 0⟩

/-- Counterexample to C1 as stated: both catch-all rules are candidates and
the unbounded score formula of the claim is maximal at the rule with
priority 9223372036854776 (a legal int64), but in the matcher its score
`9223372036854776 * 1000` wraps to `-9223372036854775616`, so `Match`
returns the priority-0 rule instead of the candidate maximizing the claimed
formula. -/
theorem match_score_overflow_counterexample :
    isCandidate hugePriorityRule orgExampleRemote = true ∧
      isCandidate zeroPriorityRule orgExampleRemote = true ∧
      scoreFormulaUnbounded zeroPriorityRule orgExampleRemote
        < scoreFormulaUnbounded hugePriorityRule orgExampleRemote ∧
      ruleScore hugePriorityRule orgExampleRemote = -9223372036854775616 ∧
      ruleScore zeroPriorityRule orgExampleRemote = 0 ∧
      (Match [hugePriorityRule, zeroPriorityRule] orgExampleRemote).toOption.map
          MatchResult.rule = some zeroPriorityRule := by
  refine ⟨by decide, by decide, by decide, by decide, by decide, by decide⟩

end Mgit
